import Mathlib

/-!
# Verification of the chain3go unit-conversion and address-checksum core

Shallow embedding of the `chain3` package (file `mc.go`): the unit/conversion
engine (`ToBigNumber`, `FromDecimal`, `FromSha`, `ToSha`, `getValueOfUnit`,
`unitMap`) and the address checksum validator (`IsAddress`,
`isChecksumAddress`, `Sha3`), over exact arithmetic.

Modelling conventions:
* A Go string is a byte slice; every string handled by this code (unit names,
  hex/decimal numerals, addresses, hash digests) is ASCII, so Go strings are
  modelled as `List Nat` of byte values, and the rune-based Go helpers
  `strings.ToLower` / `strings.ToUpper` / `strings.TrimSpace` are modelled by
  their ASCII byte action (on ASCII input the two agree).
* `*big.Rat` is modelled by `ℚ` (both are always reduced, with the sign on the
  numerator), `*big.Int` by `ℤ`.
* Partial Go computations are modelled by `Option`: `none` stands for a panic
  (out-of-range string index, `big.Rat.Quo` with zero divisor, the explicit
  `panic` in `getValueOfUnit`, nil-pointer dereference of a nil
  `ToBigNumber` result) or for a `big.Int.SetString` failure, whose resulting
  value Go documents as undefined.
-/

set_option maxRecDepth 100000

namespace Chain3

/-- A Go string, as its list of (ASCII) byte values. -/
abbrev GoStr := List Nat

/-- Byte list of an ASCII Lean string literal. -/
def gs (s : String) : GoStr := s.data.map Char.toNat

/-- ASCII action of Go `strings.ToLower` on one byte. -/
def lowerByte (b : Nat) : Nat := if 65 ≤ b ∧ b ≤ 90 then b + 32 else b

/-- ASCII action of Go `strings.ToUpper` on one byte. -/
def upperByte (b : Nat) : Nat := if 97 ≤ b ∧ b ≤ 122 then b - 32 else b

/-- ASCII whitespace recognized by Go `unicode.IsSpace`. -/
def isSpaceB (b : Nat) : Bool := decide (b = 32 ∨ (9 ≤ b ∧ b ≤ 13))

/-- ASCII action of Go `strings.TrimSpace`. -/
def trimSpaceB (l : GoStr) : GoStr :=
  ((l.dropWhile isSpaceB).reverse.dropWhile isSpaceB).reverse

/-- Value of an ASCII decimal digit byte, as accepted by `big.Int.SetString`
with base 10. -/
def decValB (b : Nat) : Option Nat :=
  if 48 ≤ b ∧ b ≤ 57 then some (b - 48) else none

/-- Value of an ASCII hexadecimal digit byte (`0-9`, `a-f`, `A-F`), as accepted
by `big.Int.SetString` with base 16 and by `strconv.ParseInt`. -/
def hexValB (b : Nat) : Option Nat :=
  if 48 ≤ b ∧ b ≤ 57 then some (b - 48)
  else if 97 ≤ b ∧ b ≤ 102 then some (b - 87)
  else if 65 ≤ b ∧ b ≤ 70 then some (b - 55) else none

/-- Decimal digit rendered as a byte. -/
def decByte (d : Nat) : Nat := d + 48

/-- Hexadecimal digit rendered as a lowercase byte, as `big.Int.Text 16` and
`hex.EncodeToString` render digits. -/
def hexByte (d : Nat) : Nat := if d < 10 then d + 48 else d + 87

/-! ## Positional numerals

`big.Int` formatting and parsing, modelled via little-endian digit lists with
fuel-based (hence kernel-reducible) digit extraction. -/

/-- Value of a little-endian digit list in base `b`. -/
def valLE (b : Nat) : List Nat → Nat
  | [] => 0
  | d :: t => d + b * valLE b t

/-- Little-endian digits of `n` in base `b`, with explicit fuel. -/
def digitsLEF (b : Nat) : Nat → Nat → List Nat
  | 0, _ => []
  | fuel + 1, n => if n = 0 then [] else n % b :: digitsLEF b fuel (n / b)

/-- Little-endian digits of `n` in base `b` (`n` itself is enough fuel). -/
def digitsLE (b n : Nat) : List Nat := digitsLEF b n n

/-- Big-endian digit bytes of `n` in base `b` through the digit renderer `f`;
`0` renders as the single digit `"0"`, positive numbers with no leading zero.
This is how `big.Int` renders magnitudes. -/
def natBytes (f : Nat → Nat) (b n : Nat) : GoStr :=
  if n = 0 then [48] else ((digitsLE b n).reverse).map f

/-- `big.Int.String()`: decimal, `-` sign for negatives. -/
def goIntDec (i : ℤ) : GoStr :=
  if i < 0 then 45 :: natBytes decByte 10 i.natAbs else natBytes decByte 10 i.natAbs

/-- `big.Int.Text 16`: lowercase hexadecimal, `-` sign for negatives. -/
def intText16 (i : ℤ) : GoStr :=
  if i < 0 then 45 :: natBytes hexByte 16 i.natAbs else natBytes hexByte 16 i.natAbs

/-- Magnitude parser: all bytes must be digits of the base (per the digit
reader `f`) and at least one digit must be present. -/
def parseDigitsAux (b : Nat) (f : Nat → Option Nat) : List Nat → Nat → Option Nat
  | [], acc => some acc
  | byte :: t, acc =>
    match f byte with
    | some d => parseDigitsAux b f t (acc * b + d)
    | none => none

/-- Magnitude parser entry point: rejects the empty numeral. -/
def parseDigits (b : Nat) (f : Nat → Option Nat) (l : List Nat) : Option Nat :=
  match l with
  | [] => none
  | _ => parseDigitsAux b f l 0

/-- `big.Int.SetString(s, base)` for an explicit base: an optional `+`/`-`
sign followed by a nonempty run of digits of the base, nothing else.
`none` models a failed parse (Go leaves the receiver undefined). -/
def bigIntSetString (b : Nat) (f : Nat → Option Nat) (l : GoStr) : Option ℤ :=
  match l with
  | [] => none
  | h :: t =>
    if h = 43 then (parseDigits b f t).map Int.ofNat
    else if h = 45 then (parseDigits b f t).map fun n => -(n : ℤ)
    else (parseDigits b f (h :: t)).map Int.ofNat

/-! ## The unit table and `getValueOfUnit` -/

/-- The `unitMap` of `mc.go`, verbatim: unit name → decimal scale factor. -/
def unitMap : List (GoStr × GoStr) :=
  [(gs ("Gsha"), gs ("1000000000")),
   (gs ("Ksha"), gs ("1000")),
   (gs ("Msha"), gs ("1000000")),
   (gs ("femtomc"), gs ("1000")),
   (gs ("gmc"), gs ("1000000000000000000000000000")),
   (gs ("grand"), gs ("1000000000000000000000")),
   (gs ("gsha"), gs ("1000000000")),
   (gs ("kmc"), gs ("1000000000000000000000")),
   (gs ("ksha"), gs ("1000")),
   (gs ("mc"), gs ("1000000000000000000")),
   (gs ("micro"), gs ("1000000000000")),
   (gs ("micromc"), gs ("1000000000000")),
   (gs ("milli"), gs ("1000000000000000")),
   (gs ("millimc"), gs ("1000000000000000")),
   (gs ("mmc"), gs ("1000000000000000000000000")),
   (gs ("msha"), gs ("1000000")),
   (gs ("nano"), gs ("1000000000")),
   (gs ("nanomc"), gs ("1000000000")),
   (gs ("nomc"), gs ("0")),
   (gs ("picomc"), gs ("1000000")),
   (gs ("sand"), gs ("1000000000000")),
   (gs ("sha"), gs ("1")),
   (gs ("tmc"), gs ("1000000000000000000000000000000")),
   (gs ("xiao"), gs ("1000000000"))]

/-- `getValueOfUnit` of `mc.go`: trim the unit name; lowercase it if nonempty,
otherwise substitute the literal `"ether"`; look the result up in `unitMap`
and parse the stored decimal scale with `big.Int.SetString(_, 10)` into a
`big.Rat`. A failed lookup reaches `panic(...)`, modelled as `none`. -/
def getValueOfUnit (unit : GoStr) : Option ℚ :=
  let u := trimSpaceB unit
  let u2 := if u ≠ [] then u.map lowerByte else gs ("ether")
  (unitMap.lookup u2).bind fun v => (bigIntSetString 10 decValB v).map fun i => ((i : ℚ))

/-! ## `ToBigNumber`, `FromDecimal`, `FromSha`, `ToSha` -/

/-- The dynamic `interface{}` argument of `ToBigNumber`: the three typed cases
of its switch, plus `VOther` for every other dynamic type (which falls through
the switch and returns a nil `*big.Rat`). -/
inductive GoValue
  | VRat (q : ℚ)
  | VInt (i : ℤ)
  | VStr (s : GoStr)
  | VOther

export GoValue (VRat VInt VStr VOther)

/-- `strings.Index(v, "0x") == 0`. -/
def starts0x : GoStr → Bool
  | a :: b :: _ => a == 48 && b == 120
  | _ => false

/-- `strings.Index(v, "-0x") == 0`. -/
def startsNeg0x : GoStr → Bool
  | a :: b :: c :: _ => a == 45 && b == 48 && c == 120
  | _ => false

/-- `strings.Replace(v, "0x", "", -1)`: drop every (left-to-right,
non-overlapping) occurrence of the two bytes `"0x"`. -/
def replaceAll0x : GoStr → GoStr
  | [] => []
  | [b] => [b]
  | a :: b :: t =>
    if a = 48 ∧ b = 120 then replaceAll0x t else a :: replaceAll0x (b :: t)

/-- `ToBigNumber` of `mc.go`: a `*big.Rat` passes through, a `*big.Int` is
widened, a string is parsed (base 16 with every `"0x"` occurrence removed when
it starts with `"0x"` or `"-0x"`, base 10 otherwise); any other type yields a
nil result (`none`). -/
def ToBigNumber (value : GoValue) : Option ℚ :=
  match value with
  | VRat q => some q
  | VInt i => some ((i : ℚ))
  | VStr v =>
    if starts0x v || startsNeg0x v then
      (bigIntSetString 16 hexValB (replaceAll0x v)).map fun i => ((i : ℚ))
    else
      (bigIntSetString 10 decValB v).map fun i => ((i : ℚ))
  | VOther => none

/-- `FromDecimal` of `mc.go`, integral branch: `Num().Text(16)` with `0x`
inserted after the sign. The non-integral branch formats the IEEE-754 bit
pattern of `Float64()` (machine floating point, outside this embedding); no
theorem below depends on it and it is unreachable from integer and string
inputs, whose parses are always integral. It is mapped to `none` here. -/
def FromDecimal (value : GoValue) : Option GoStr :=
  match ToBigNumber value with
  | none => none
  | some q =>
    if q.den = 1 then
      some (if q < 0 then 45 :: 48 :: 120 :: (intText16 q.num).drop 1
            else 48 :: 120 :: intText16 q.num)
    else none

/-- `ToSha` of `mc.go`: multiply the parsed number by the unit scale and
return the decimal rendering of the numerator. -/
def ToSha (number : GoValue) (unit : GoStr) : Option GoStr :=
  match ToBigNumber number, getValueOfUnit unit with
  | some n, some u => some (goIntDec ((n * u).num))
  | _, _ => none

/-- `FromSha` of `mc.go`: divide the parsed number by the unit scale with
`big.Rat.Quo` and return the decimal rendering of the numerator. `Quo`
panics when the divisor is zero (`none`). -/
def FromSha (number : GoStr) (unit : GoStr) : Option GoStr :=
  match ToBigNumber (VStr number), getValueOfUnit unit with
  | some n, some u => if u = 0 then none else some (goIntDec ((n / u).num))
  | _, _ => none

/-! ## Keccak-256

`sha3Hash` wraps `sha3.NewKeccak256()` from the vendored crypto library (an
external collaborator per the spec): Keccak-256 is the pre-standardization
variant (pad byte `0x01`, rate 136) used by Ethereum-family chains. The state
is the flat lane list `A[x,y] = st[x + 5*y]`; one round is fully unrolled so
that concrete digests reduce fast inside the kernel. -/

def mask64 : Nat := 0xFFFFFFFFFFFFFFFF

def rotl64 (a n : Nat) : Nat := ((a <<< n) ||| (a >>> (64 - n))) &&& mask64

def keccakRC : List Nat :=
  [0x0000000000000001, 0x0000000000008082, 0x800000000000808a, 0x8000000080008000,
   0x000000000000808b, 0x0000000080000001, 0x8000000080008081, 0x8000000000008009,
   0x000000000000008a, 0x0000000000000088, 0x0000000080008009, 0x000000008000000a,
   0x000000008000808b, 0x800000000000008b, 0x8000000000008089, 0x8000000000008003,
   0x8000000000008002, 0x8000000000000080, 0x000000000000800a, 0x800000008000000a,
   0x8000000080008081, 0x8000000000008080, 0x0000000080000001, 0x8000000080008008]

def keccakRound (rc : Nat) (st : List Nat) : List Nat :=
  match st with
  | [a0, a1, a2, a3, a4, a5, a6, a7, a8, a9, a10, a11, a12, a13, a14, a15, a16, a17, a18, a19, a20, a21, a22, a23, a24] =>
    let c0 := (((a0 ^^^ a5) ^^^ a10) ^^^ a15) ^^^ a20
    let c1 := (((a1 ^^^ a6) ^^^ a11) ^^^ a16) ^^^ a21
    let c2 := (((a2 ^^^ a7) ^^^ a12) ^^^ a17) ^^^ a22
    let c3 := (((a3 ^^^ a8) ^^^ a13) ^^^ a18) ^^^ a23
    let c4 := (((a4 ^^^ a9) ^^^ a14) ^^^ a19) ^^^ a24
    let d0 := c4 ^^^ rotl64 c1 1
    let d1 := c0 ^^^ rotl64 c2 1
    let d2 := c1 ^^^ rotl64 c3 1
    let d3 := c2 ^^^ rotl64 c4 1
    let d4 := c3 ^^^ rotl64 c0 1
    let e0 := a0 ^^^ d0
    let e1 := a1 ^^^ d1
    let e2 := a2 ^^^ d2
    let e3 := a3 ^^^ d3
    let e4 := a4 ^^^ d4
    let e5 := a5 ^^^ d0
    let e6 := a6 ^^^ d1
    let e7 := a7 ^^^ d2
    let e8 := a8 ^^^ d3
    let e9 := a9 ^^^ d4
    let e10 := a10 ^^^ d0
    let e11 := a11 ^^^ d1
    let e12 := a12 ^^^ d2
    let e13 := a13 ^^^ d3
    let e14 := a14 ^^^ d4
    let e15 := a15 ^^^ d0
    let e16 := a16 ^^^ d1
    let e17 := a17 ^^^ d2
    let e18 := a18 ^^^ d3
    let e19 := a19 ^^^ d4
    let e20 := a20 ^^^ d0
    let e21 := a21 ^^^ d1
    let e22 := a22 ^^^ d2
    let e23 := a23 ^^^ d3
    let e24 := a24 ^^^ d4
    let b0 := e0
    let b1 := rotl64 e6 44
    let b2 := rotl64 e12 43
    let b3 := rotl64 e18 21
    let b4 := rotl64 e24 14
    let b5 := rotl64 e3 28
    let b6 := rotl64 e9 20
    let b7 := rotl64 e10 3
    let b8 := rotl64 e16 45
    let b9 := rotl64 e22 61
    let b10 := rotl64 e1 1
    let b11 := rotl64 e7 6
    let b12 := rotl64 e13 25
    let b13 := rotl64 e19 8
    let b14 := rotl64 e20 18
    let b15 := rotl64 e4 27
    let b16 := rotl64 e5 36
    let b17 := rotl64 e11 10
    let b18 := rotl64 e17 15
    let b19 := rotl64 e23 56
    let b20 := rotl64 e2 62
    let b21 := rotl64 e8 55
    let b22 := rotl64 e14 39
    let b23 := rotl64 e15 41
    let b24 := rotl64 e21 2
    let f0 := b0 ^^^ ((b1 ^^^ mask64) &&& b2)
    let f1 := b1 ^^^ ((b2 ^^^ mask64) &&& b3)
    let f2 := b2 ^^^ ((b3 ^^^ mask64) &&& b4)
    let f3 := b3 ^^^ ((b4 ^^^ mask64) &&& b0)
    let f4 := b4 ^^^ ((b0 ^^^ mask64) &&& b1)
    let f5 := b5 ^^^ ((b6 ^^^ mask64) &&& b7)
    let f6 := b6 ^^^ ((b7 ^^^ mask64) &&& b8)
    let f7 := b7 ^^^ ((b8 ^^^ mask64) &&& b9)
    let f8 := b8 ^^^ ((b9 ^^^ mask64) &&& b5)
    let f9 := b9 ^^^ ((b5 ^^^ mask64) &&& b6)
    let f10 := b10 ^^^ ((b11 ^^^ mask64) &&& b12)
    let f11 := b11 ^^^ ((b12 ^^^ mask64) &&& b13)
    let f12 := b12 ^^^ ((b13 ^^^ mask64) &&& b14)
    let f13 := b13 ^^^ ((b14 ^^^ mask64) &&& b10)
    let f14 := b14 ^^^ ((b10 ^^^ mask64) &&& b11)
    let f15 := b15 ^^^ ((b16 ^^^ mask64) &&& b17)
    let f16 := b16 ^^^ ((b17 ^^^ mask64) &&& b18)
    let f17 := b17 ^^^ ((b18 ^^^ mask64) &&& b19)
    let f18 := b18 ^^^ ((b19 ^^^ mask64) &&& b15)
    let f19 := b19 ^^^ ((b15 ^^^ mask64) &&& b16)
    let f20 := b20 ^^^ ((b21 ^^^ mask64) &&& b22)
    let f21 := b21 ^^^ ((b22 ^^^ mask64) &&& b23)
    let f22 := b22 ^^^ ((b23 ^^^ mask64) &&& b24)
    let f23 := b23 ^^^ ((b24 ^^^ mask64) &&& b20)
    let f24 := b24 ^^^ ((b20 ^^^ mask64) &&& b21)
    [f0 ^^^ rc, f1, f2, f3, f4, f5, f6, f7, f8, f9, f10, f11, f12, f13, f14, f15, f16, f17, f18, f19, f20, f21, f22, f23, f24]
  | _ => []

def keccakF (st : List Nat) : List Nat := keccakRC.foldl (fun s rc => keccakRound rc s) st

/-- Little-endian 8-byte lane value. -/
def bytesLane (bs : List Nat) : Nat := bs.foldr (fun b acc => b + 256 * acc) 0

/-- Lane back to 8 little-endian bytes. -/
def laneBytes (v : Nat) : List Nat :=
  [v &&& 255, (v >>> 8) &&& 255, (v >>> 16) &&& 255, (v >>> 24) &&& 255, (v >>> 32) &&& 255,
   (v >>> 40) &&& 255, (v >>> 48) &&& 255, (v >>> 56) &&& 255]

/-- XOR one 136-byte block into the first 17 lanes, then permute. -/
def absorbBlock (st : List Nat) (block : List Nat) : List Nat :=
  keccakF ((List.range 25).map fun i =>
    if i < 17 then st.getD i 0 ^^^ bytesLane ((block.drop (8 * i)).take 8) else st.getD i 0)

/-- Keccak `pad10*1` with domain byte `0x01` (not the SHA-3 `0x06`). -/
def padKeccak (m : List Nat) : List Nat :=
  let p := 136 - m.length % 136
  if p == 1 then m ++ [0x81] else m ++ 0x01 :: (List.replicate (p - 2) 0 ++ [0x80])

def chunksAux : Nat → List Nat → List (List Nat)
  | 0, _ => []
  | _, [] => []
  | fuel + 1, l => l.take 136 :: chunksAux fuel (l.drop 136)

/-- Keccak-256 digest (32 bytes) of a byte message. -/
def keccak256 (m : List Nat) : List Nat :=
  let final := ((chunksAux (m.length + 1) (padKeccak m)).foldl absorbBlock (List.replicate 25 0))
  ((List.range 4).map fun i => laneBytes (final.getD i 0)).flatten

/-- `sha3Hash` of `mc.go` on a single argument: Keccak-256 of the bytes. -/
def sha3Hash (data : GoStr) : List Nat := keccak256 data

/-- Lowercase hex digit bytes of a byte list, two per byte
(`hex.EncodeToString`). -/
def bytesHexCore : List Nat → GoStr
  | [] => []
  | b :: t => hexByte (b / 16) :: hexByte (b % 16) :: bytesHexCore t

/-- Modelled from the spec: `common.BytesToHex` (package `common` of this
repository, not under `src/`). Per spec section 6, addresses and hashes are
hex strings prefixed with `"0x"`; the encoding is standard lowercase hex, two
digits per byte. -/
def BytesToHex (bs : List Nat) : GoStr := 48 :: 120 :: bytesHexCore bs

/-- `Sha3(data, "")` as called by `isChecksumAddress`: `json.Unmarshal` of the
empty options string fails, so the default-encoding path is taken and the raw
bytes of `data` are hashed, the digest rendered by `common.BytesToHex`. -/
def Sha3Default (data : GoStr) : GoStr := BytesToHex (sha3Hash data)

/-! ## The address checksum validator -/

/-- The `for i := 0; i < 40; i++` loop body of `isChecksumAddress`, in source
order: index the hash string (a Go string index out of range panics: `none`),
parse the hash character with `strconv.ParseInt(_, 16, 32)` (a parse error
returns `false`), then index `address` (panic when out of range: `none`) and
test the source's condition
`d > 7 && ToUpper(c) == c || d <= 7 && ToLower(c) == c`, returning `false`
when it holds. The second argument is the loop counter `i`, the third the
remaining iteration count. -/
def checksumLoop (addressHash address : GoStr) : Nat → Nat → Option Bool
  | _, 0 => some true
  | i, fuel + 1 =>
    match addressHash.get? i with
    | none => none
    | some hb =>
      match hexValB hb with
      | none => some false
      | some d =>
        match address.get? i with
        | none => none
        | some c =>
          if (decide (7 < d) && (upperByte c == c)) ||
              (decide (d ≤ 7) && (lowerByte c == c)) then some false
          else checksumLoop addressHash address (i + 1) fuel

/-- `isChecksumAddress` of `mc.go`: remove every `"0x"` from the input, hash
the lowercased result with `Sha3(_, "")`, then run the 40-position loop —
note the loop reads `address[i]` of the original, unstripped input. -/
def isChecksumAddress (address : GoStr) : Option Bool :=
  let addr := replaceAll0x address
  let addressHash := Sha3Default (addr.map lowerByte)
  checksumLoop addressHash address 0 40

/-- `regexp "^(0x)?[0-9a-f]{40}$"` (and its upper-case twin) as a predicate:
either forty bytes of the class, or `"0x"` followed by forty bytes of the
class. -/
def matchesOptional0x (p : Nat → Bool) (s : GoStr) : Bool :=
  (s.length == 40 && s.all p) || (s.length == 42 && starts0x s && (s.drop 2).all p)

/-- `[0-9a-f]`. -/
def isHexLowerB (b : Nat) : Bool := decide ((48 ≤ b ∧ b ≤ 57) ∨ (97 ≤ b ∧ b ≤ 102))

/-- `[0-9A-F]`. -/
def isHexUpperB (b : Nat) : Bool := decide ((48 ≤ b ∧ b ≤ 57) ∨ (65 ≤ b ∧ b ≤ 70))

/-- `IsAddress` of `mc.go`: all-lowercase or all-uppercase 40-hex-digit
strings (optional `"0x"`) are addresses; anything else is referred to
`isChecksumAddress`. -/
def IsAddress (address : GoStr) : Option Bool :=
  if matchesOptional0x isHexLowerB address || matchesOptional0x isHexUpperB address then
    some true
  else isChecksumAddress address

/-! ## Spec-side reference definitions -/

/-- Modelled from the spec (section 4.5): the EIP-55 mixed-case checksum test
itself — strip the `"0x"` prefix, Keccak-256 the ASCII bytes of the lowercased
40-character address, and demand, for each position, an uppercase character
where the corresponding hex nibble of the digest exceeds 7 and a lowercase
character otherwise (characters without case, the digits, satisfy both). -/
def eip55Valid (address : GoStr) : Bool :=
  let addr := match address with
    | 48 :: 120 :: t => t
    | s => s
  let digest := bytesHexCore (keccak256 (addr.map lowerByte))
  addr.length == 40 && (List.range 40).all fun i =>
    match digest.get? i, addr.get? i with
    | some hb, some c =>
      match hexValB hb with
      | some d => if 7 < d then upperByte c == c else lowerByte c == c
      | none => false
    | _, _ => false

/-- `"0x"` followed by a nonempty run of hex digits. -/
def posHexNumeral : GoStr → Bool
  | a :: b :: ds => a == 48 && b == 120 && (!ds.isEmpty && ds.all fun byte => (hexValB byte).isSome)
  | _ => false

/-- A syntactically valid hex quantity string: an optional `-`, the prefix
`"0x"`, then a nonempty run of hex digits (claim C3's domain). -/
def isValidHexQuantity : GoStr → Bool
  | [] => false
  | h :: t => if h == 45 then posHexNumeral t else posHexNumeral (h :: t)

/-- Digit-run normalization: drop leading `'0'` bytes, keep at least one
digit, lowercase. -/
def normHexDigits (ds : GoStr) : GoStr :=
  let core := ds.dropWhile fun b => b == 48
  if core.isEmpty then [48] else core.map lowerByte

/-- Normalization of a valid hex quantity exactly as claim C3 words it —
lowercase the digits and strip unnecessary leading zeros (keeping one digit);
the sign is untouched. -/
def normHexZerosCase (s : GoStr) : GoStr :=
  match s with
  | 45 :: 48 :: 120 :: ds => 45 :: 48 :: 120 :: normHexDigits ds
  | 48 :: 120 :: ds => 48 :: 120 :: normHexDigits ds
  | _ => s

/-- Normalization as amended for claim C3: as `normHexZerosCase`, except that
a negative zero additionally drops its sign (the code renders value zero as
`"0x0"` regardless of the input sign). -/
def normHexQuantity (s : GoStr) : GoStr :=
  match s with
  | 45 :: 48 :: 120 :: ds =>
    let core := ds.dropWhile fun b => b == 48
    if core.isEmpty then 48 :: 120 :: [48] else 45 :: 48 :: 120 :: core.map lowerByte
  | 48 :: 120 :: ds => 48 :: 120 :: normHexDigits ds
  | _ => s

/-- Value of a big-endian run of hex digit bytes (proof-side helper). -/
def hexDigitsVal (ds : GoStr) : Nat :=
  (ds.map fun bb => (hexValB bb).getD 0).foldl (fun a d => a * 16 + d) 0

/-- Canonical `0x` hex rendering of an integer (for stating that `ToBigNumber`
accepts hex quantity strings). -/
def goIntHex (i : ℤ) : GoStr :=
  if i < 0 then 45 :: 48 :: 120 :: natBytes hexByte 16 i.natAbs
  else 48 :: 120 :: natBytes hexByte 16 i.natAbs

/-! ## Byte-level lemmas -/

theorem lowerByte_idem (b : Nat) : lowerByte (lowerByte b) = lowerByte b := by
  simp only [lowerByte]
  split_ifs <;> omega

theorem isSpaceB_lowerByte (b : Nat) : isSpaceB (lowerByte b) = isSpaceB b := by
  simp only [isSpaceB, lowerByte]
  split_ifs with h
  · exact decide_eq_decide.mpr (by omega)
  · rfl

theorem hexValB_eq_some (b d : Nat) (h : hexValB b = some d) :
    (48 ≤ b ∧ b ≤ 57 ∧ d = b - 48) ∨ (97 ≤ b ∧ b ≤ 102 ∧ d = b - 87) ∨
      (65 ≤ b ∧ b ≤ 70 ∧ d = b - 55) := by
  simp only [hexValB] at h
  split_ifs at h <;> simp only [Option.some.injEq] at h <;> omega

theorem hexValB_lt (b d : Nat) (h : hexValB b = some d) : d < 16 := by
  rcases hexValB_eq_some b d h with h | h | h <;> omega

theorem hexByte_hexValB (b d : Nat) (h : hexValB b = some d) : hexByte d = lowerByte b := by
  rcases hexValB_eq_some b d h with h | h | h <;> simp only [hexByte, lowerByte] <;>
    split_ifs <;> omega

theorem hexValB_hexByte (d : Nat) (hd : d < 16) : hexValB (hexByte d) = some d := by
  interval_cases d <;> rfl

theorem decValB_decByte (d : Nat) (hd : d < 10) : decValB (decByte d) = some d := by
  interval_cases d <;> rfl

theorem hexValB_eq_zero (b : Nat) (h : hexValB b = some 0) : b = 48 := by
  rcases hexValB_eq_some b 0 h with h | h | h <;> omega

/-! ## Digit-list lemmas -/

theorem digitsLEF_eq_digitsLE (b : Nat) (hb : 2 ≤ b) :
    ∀ n fuel, n ≤ fuel → digitsLEF b fuel n = digitsLE b n := by
  intro n
  induction n using Nat.strong_induction_on with
  | _ n ih =>
    intro fuel hfuel
    by_cases h0 : n = 0
    · subst h0
      cases fuel with
      | zero => rfl
      | succ f => simp [digitsLEF, digitsLE]
    · cases fuel with
      | zero => omega
      | succ f =>
        obtain ⟨m, rfl⟩ := Nat.exists_eq_succ_of_ne_zero h0
        have hdiv_lt : (m + 1) / b < m + 1 := Nat.div_lt_self (Nat.succ_pos m) (by omega)
        have h1 : digitsLEF b (f + 1) (m + 1) = (m + 1) % b :: digitsLEF b f ((m + 1) / b) := by
          simp [digitsLEF]
        have h2 : digitsLE b (m + 1) = (m + 1) % b :: digitsLEF b m ((m + 1) / b) := by
          simp [digitsLE, digitsLEF]
        rw [h1, h2, ih ((m + 1) / b) hdiv_lt f (by omega), ih ((m + 1) / b) hdiv_lt m (by omega)]

theorem digitsLE_succ (b n : Nat) (hb : 2 ≤ b) (hn : n ≠ 0) :
    digitsLE b n = n % b :: digitsLE b (n / b) := by
  obtain ⟨m, rfl⟩ := Nat.exists_eq_succ_of_ne_zero hn
  have h2 : digitsLE b (m + 1) = (m + 1) % b :: digitsLEF b m ((m + 1) / b) := by
    simp [digitsLE, digitsLEF]
  have hdiv_lt : (m + 1) / b < m + 1 := Nat.div_lt_self (Nat.succ_pos m) (by omega)
  rw [h2, digitsLEF_eq_digitsLE b hb ((m + 1) / b) m (by omega)]

theorem valLE_digitsLE (b : Nat) (hb : 2 ≤ b) : ∀ n, valLE b (digitsLE b n) = n := by
  intro n
  induction n using Nat.strong_induction_on with
  | _ n ih =>
    by_cases h0 : n = 0
    · subst h0; rfl
    · rw [digitsLE_succ b n hb h0]
      have hdiv : n / b < n := Nat.div_lt_self (Nat.pos_of_ne_zero h0) (by omega)
      simp only [valLE, ih _ hdiv]
      exact Nat.mod_add_div n b

theorem digitsLE_lt (b : Nat) (hb : 2 ≤ b) : ∀ n d, d ∈ digitsLE b n → d < b := by
  intro n
  induction n using Nat.strong_induction_on with
  | _ n ih =>
    intro d hd
    by_cases h0 : n = 0
    · subst h0; simp [digitsLE, digitsLEF] at hd
    · rw [digitsLE_succ b n hb h0] at hd
      rcases List.mem_cons.mp hd with h | h
      · subst h; exact Nat.mod_lt n (by omega)
      · exact ih (n / b) (Nat.div_lt_self (Nat.pos_of_ne_zero h0) (by omega)) d h

theorem digitsLE_ne_nil (b n : Nat) (hb : 2 ≤ b) (hn : n ≠ 0) : digitsLE b n ≠ [] := by
  rw [digitsLE_succ b n hb hn]
  simp

theorem digitsLE_getLast (b : Nat) (hb : 2 ≤ b) :
    ∀ n, n ≠ 0 → (digitsLE b n).getLast? ≠ some 0 := by
  intro n
  induction n using Nat.strong_induction_on with
  | _ n ih =>
    intro hn
    rw [digitsLE_succ b n hb hn]
    by_cases hq : n / b = 0
    · have hnb : n < b := (Nat.div_eq_zero_iff (by omega)).mp hq
      rw [hq]
      show (n % b :: digitsLE b 0).getLast? ≠ some 0
      have hz : digitsLE b 0 = [] := rfl
      rw [hz, Nat.mod_eq_of_lt hnb]
      simp [List.getLast?]
      exact hn
    · have hne := digitsLE_ne_nil b (n / b) hb hq
      obtain ⟨y, l2, hl⟩ := List.exists_cons_of_ne_nil hne
      rw [hl, List.getLast?_cons_cons, ← hl]
      exact ih (n / b) (Nat.div_lt_self (Nat.pos_of_ne_zero hn) (by omega)) hq

theorem valLE_pos (b : Nat) (hb : 2 ≤ b) :
    ∀ l : List Nat, l ≠ [] → l.getLast? ≠ some 0 → 0 < valLE b l := by
  intro l
  induction l with
  | nil => intro h _; exact absurd rfl h
  | cons d t ih =>
    intro _ hlast
    cases t with
    | nil =>
      rw [List.getLast?_singleton] at hlast
      have hd0 : d ≠ 0 := by
        intro h
        exact hlast (by rw [h])
      have hv : valLE b (d :: []) = d + b * valLE b [] := rfl
      rw [hv]
      omega
    | cons x t2 =>
      rw [List.getLast?_cons_cons] at hlast
      have hpos := ih (by simp) hlast
      have hmul : 0 < b * valLE b (x :: t2) := Nat.mul_pos (by omega) hpos
      have hv : valLE b (d :: x :: t2) = d + b * valLE b (x :: t2) := rfl
      rw [hv]
      omega

theorem digitsLE_valLE (b : Nat) (hb : 2 ≤ b) :
    ∀ l : List Nat, (∀ d ∈ l, d < b) → l.getLast? ≠ some 0 → digitsLE b (valLE b l) = l := by
  intro l
  induction l with
  | nil => intro _ _; rfl
  | cons d t ih =>
    intro hlt hlast
    have hd : d < b := hlt d (by simp)
    cases t with
    | nil =>
      rw [List.getLast?_singleton] at hlast
      have hdd : d ≠ 0 := by
        intro h
        exact hlast (by rw [h])
      have hv : valLE b (d :: []) = d := by simp [valLE]
      rw [hv, digitsLE_succ b d hb hdd, Nat.mod_eq_of_lt hd, Nat.div_eq_of_lt hd]
      rfl
    | cons x t2 =>
      rw [List.getLast?_cons_cons] at hlast
      have hpos : 0 < valLE b (x :: t2) := valLE_pos b hb _ (by simp) hlast
      have hv : valLE b (d :: x :: t2) = d + b * valLE b (x :: t2) := by simp [valLE]
      rw [hv]
      have hbpos : 0 < b * valLE b (x :: t2) := Nat.mul_pos (by omega) hpos
      have hne : d + b * valLE b (x :: t2) ≠ 0 := by omega
      rw [digitsLE_succ b _ hb hne]
      have hmod : (d + b * valLE b (x :: t2)) % b = d := by
        rw [Nat.add_mul_mod_self_left]
        exact Nat.mod_eq_of_lt hd
      have hdiv : (d + b * valLE b (x :: t2)) / b = valLE b (x :: t2) := by
        rw [Nat.add_mul_div_left _ _ (show 0 < b by omega), Nat.div_eq_of_lt hd]
        simp
      rw [hmod, hdiv, ih (fun e he => hlt e (by simp [he])) hlast]

/-! ## Fold lemmas linking parsing and digit values -/

theorem foldr_valLE (b : Nat) : ∀ l : List Nat, l.foldr (fun d a => a * b + d) 0 = valLE b l := by
  intro l
  induction l with
  | nil => rfl
  | cons d t ih => simp only [List.foldr, valLE, ih]; ring

theorem foldl_reverse_valLE (b : Nat) (l : List Nat) :
    l.reverse.foldl (fun a d => a * b + d) 0 = valLE b l := by
  rw [List.foldl_reverse]
  exact foldr_valLE b l

theorem foldl_eq_valLE_reverse (b : Nat) (l : List Nat) :
    l.foldl (fun a d => a * b + d) 0 = valLE b l.reverse := by
  rw [← foldl_reverse_valLE b l.reverse, List.reverse_reverse]

/-! ## Parsing rendered numerals -/

theorem parseDigitsAux_map (bb : Nat) (f : Nat → Option Nat) (g : Nat → Nat)
    (hfg : ∀ d, d < bb → f (g d) = some d) :
    ∀ (l : List Nat) (acc : Nat), (∀ d ∈ l, d < bb) →
      parseDigitsAux bb f (l.map g) acc = some (l.foldl (fun a d => a * bb + d) acc) := by
  intro l
  induction l with
  | nil => intro acc _; rfl
  | cons d t ih =>
    intro acc hall
    have hd : d < bb := hall d (by simp)
    simp only [List.map, parseDigitsAux, hfg d hd, List.foldl]
    exact ih (acc * bb + d) fun e he => hall e (by simp [he])

theorem parseDigitsAux_isSome (bb : Nat) (f : Nat → Option Nat) :
    ∀ (l : List Nat) (acc : Nat), (∀ byte ∈ l, (f byte).isSome) →
      parseDigitsAux bb f l acc =
        some ((l.map fun byte => (f byte).getD 0).foldl (fun a d => a * bb + d) acc) := by
  intro l
  induction l with
  | nil => intro acc _; rfl
  | cons byte t ih =>
    intro acc hall
    obtain ⟨d, hd⟩ := Option.isSome_iff_exists.mp (hall byte (by simp))
    simp only [List.map, parseDigitsAux, hd, List.foldl, Option.getD_some]
    exact ih (acc * bb + d) fun e he => hall e (by simp [he])

theorem natBytes_ne_nil (g : Nat → Nat) (bb n : Nat) (hb : 2 ≤ bb) : natBytes g bb n ≠ [] := by
  unfold natBytes
  split
  · simp
  · simp
    exact digitsLE_ne_nil bb n hb (by assumption)

theorem parseDigits_natBytes (bb : Nat) (f : Nat → Option Nat) (g : Nat → Nat) (hb : 2 ≤ bb)
    (hfg : ∀ d, d < bb → f (g d) = some d) (hf48 : f 48 = some 0) :
    ∀ n, parseDigits bb f (natBytes g bb n) = some n := by
  intro n
  by_cases h0 : n = 0
  · subst h0
    simp [natBytes, parseDigits, parseDigitsAux, hf48]
  · unfold natBytes
    rw [if_neg h0]
    have hne : (digitsLE bb n).reverse.map g ≠ [] := by
      simp
      exact digitsLE_ne_nil bb n hb h0
    obtain ⟨h, t, hl⟩ := List.exists_cons_of_ne_nil hne
    unfold parseDigits
    rw [hl, ← hl]
    rw [parseDigitsAux_map bb f g hfg _ 0
      (fun d hd => digitsLE_lt bb hb n d (List.mem_reverse.mp hd))]
    rw [foldl_reverse_valLE, valLE_digitsLE bb hb]
    rw [hl]

/-! ## Shape of rendered decimal integers -/

theorem natBytes_mem_dec (n : Nat) : ∀ x ∈ natBytes decByte 10 n, 48 ≤ x ∧ x ≤ 57 := by
  intro x hx
  unfold natBytes at hx
  split at hx
  · simp at hx
    omega
  · simp only [List.mem_map] at hx
    obtain ⟨d, hd, rfl⟩ := hx
    have := digitsLE_lt 10 (by omega) n d (List.mem_reverse.mp hd)
    simp only [decByte]
    omega

theorem natBytes_head_dec (n : Nat) (hn : n ≠ 0) :
    ∃ x t, natBytes decByte 10 n = x :: t ∧ 49 ≤ x ∧ x ≤ 57 := by
  have hne := digitsLE_ne_nil 10 n (by omega) hn
  have hlast := digitsLE_getLast 10 (by omega) n hn
  obtain ⟨d, t0, hrev⟩ := List.exists_cons_of_ne_nil
    (by simpa using hne : (digitsLE 10 n).reverse ≠ [])
  have hd0 : d ≠ 0 := by
    intro h
    apply hlast
    rw [← List.head?_reverse, hrev, h]
    rfl
  have hdlt : d < 10 := digitsLE_lt 10 (by omega) n d (by
    rw [← List.mem_reverse, hrev]
    simp)
  refine ⟨decByte d, t0.map decByte, ?_, by simp [decByte]; omega, by simp [decByte]; omega⟩
  unfold natBytes
  rw [if_neg hn, hrev]
  rfl

theorem goIntDec_not0x (i : ℤ) :
    starts0x (goIntDec i) = false ∧ startsNeg0x (goIntDec i) = false := by
  by_cases hi : i < 0
  · have hn : i.natAbs ≠ 0 := by omega
    obtain ⟨x, t, hx, hx1, hx2⟩ := natBytes_head_dec i.natAbs hn
    simp only [goIntDec, if_pos hi, hx]
    constructor
    · simp [starts0x]
    · cases t with
      | nil => rfl
      | cons y t2 =>
        simp [startsNeg0x]
        omega
  · simp only [goIntDec, if_neg hi]
    obtain ⟨x, t, hx⟩ := List.exists_cons_of_ne_nil (natBytes_ne_nil decByte 10 i.natAbs (by omega))
    have hmem := natBytes_mem_dec i.natAbs x (by rw [hx]; simp)
    rw [hx]
    cases t with
    | nil => constructor <;> rfl
    | cons y t2 =>
      have hmy := natBytes_mem_dec i.natAbs y (by rw [hx]; simp)
      constructor
      · simp [starts0x]
        omega
      · cases t2 with
        | nil => rfl
        | cons z t3 =>
          simp [startsNeg0x]
          omega

theorem bigIntSetString_goIntDec (i : ℤ) : bigIntSetString 10 decValB (goIntDec i) = some i := by
  have hparse := parseDigits_natBytes 10 decValB decByte (by omega) decValB_decByte rfl
  by_cases hi : i < 0
  · have hn : i.natAbs ≠ 0 := by omega
    simp only [goIntDec, if_pos hi]
    rw [show bigIntSetString 10 decValB (45 :: natBytes decByte 10 i.natAbs)
        = (parseDigits 10 decValB (natBytes decByte 10 i.natAbs)).map (fun n => -((n : ℤ)))
        from rfl]
    rw [hparse i.natAbs]
    have hval : -((i.natAbs : ℤ)) = i := by omega
    show some (-((i.natAbs : ℤ))) = some i
    exact congrArg some hval
  · simp only [goIntDec, if_neg hi]
    obtain ⟨x, t, hx⟩ := List.exists_cons_of_ne_nil (natBytes_ne_nil decByte 10 i.natAbs (by omega))
    have hmem := natBytes_mem_dec i.natAbs x (by rw [hx]; simp)
    rw [hx]
    simp only [bigIntSetString]
    rw [if_neg (by omega), if_neg (by omega), ← hx, hparse i.natAbs]
    have hval : ((i.natAbs : ℤ)) = i := by omega
    show some (((i.natAbs : ℤ))) = some i
    exact congrArg some hval

theorem ToBigNumber_goIntDec (i : ℤ) : ToBigNumber (VStr (goIntDec i)) = some ((i : ℚ)) := by
  have h1 := goIntDec_not0x i
  simp only [ToBigNumber, h1.1, h1.2, Bool.or_self, Bool.false_or, if_neg]
  rw [bigIntSetString_goIntDec i]
  rfl

/-! ## Case-insensitivity of unit lookup -/

theorem dropWhile_map_cond (f : Nat → Nat) (p q : Nat → Bool) :
    ∀ l : List Nat, (∀ x ∈ l, p (f x) = q x) →
      (l.map f).dropWhile p = (l.dropWhile q).map f := by
  intro l
  induction l with
  | nil => intro _; rfl
  | cons x t ih =>
    intro hall
    simp only [List.map, List.dropWhile_cons, hall x (by simp)]
    by_cases h : q x = true
    · simp only [h, if_true]
      exact ih fun e he => hall e (by simp [he])
    · simp only [Bool.not_eq_true] at h
      simp [h]

theorem trimSpaceB_map_lower (l : GoStr) :
    trimSpaceB (l.map lowerByte) = (trimSpaceB l).map lowerByte := by
  unfold trimSpaceB
  rw [dropWhile_map_cond lowerByte isSpaceB isSpaceB l (fun x _ => isSpaceB_lowerByte x),
    ← List.map_reverse,
    dropWhile_map_cond lowerByte isSpaceB isSpaceB _ (fun x _ => isSpaceB_lowerByte x),
    List.map_reverse]

theorem map_lower_idem (l : GoStr) : (l.map lowerByte).map lowerByte = l.map lowerByte := by
  rw [List.map_map]
  exact List.map_congr_left fun x _ => lowerByte_idem x

theorem getValueOfUnit_map_lower (u : GoStr) :
    getValueOfUnit (u.map lowerByte) = getValueOfUnit u := by
  simp only [getValueOfUnit]
  rw [trimSpaceB_map_lower]
  by_cases h : trimSpaceB u = []
  · simp [h]
  · have h2 : (trimSpaceB u).map lowerByte ≠ [] := by
      simpa using h
    simp only [if_pos h2, if_pos h, ne_eq]
    rw [map_lower_idem]

theorem getValueOfUnit_congr_lower (u v : GoStr) (h : u.map lowerByte = v.map lowerByte) :
    getValueOfUnit u = getValueOfUnit v := by
  rw [← getValueOfUnit_map_lower u, h, getValueOfUnit_map_lower v]

/-! ## Parsing and re-rendering arbitrary valid hex digit runs -/

theorem parseDigits_hex (ds : GoStr) (hne : ds ≠ [])
    (hall : ∀ bb ∈ ds, (hexValB bb).isSome) :
    parseDigits 16 hexValB ds = some (hexDigitsVal ds) := by
  obtain ⟨h, t, hl⟩ := List.exists_cons_of_ne_nil hne
  have hstep : parseDigits 16 hexValB ds = parseDigitsAux 16 hexValB ds 0 := by
    rw [hl]
    rfl
  rw [hstep]
  exact parseDigitsAux_isSome 16 hexValB ds 0 hall

theorem no120_mem_hex (ds : GoStr) (hall : ∀ bb ∈ ds, (hexValB bb).isSome) :
    ∀ bb ∈ ds, bb ≠ 120 := by
  intro bb hbb
  obtain ⟨d, hd⟩ := Option.isSome_iff_exists.mp (hall bb hbb)
  rcases hexValB_eq_some bb d hd with h | h | h <;> omega

theorem replaceAll0x_no120 : ∀ l : GoStr, (∀ x ∈ l, x ≠ 120) → replaceAll0x l = l := by
  intro l
  induction l with
  | nil => intro _; rfl
  | cons a t ih =>
    intro hall
    cases t with
    | nil => rfl
    | cons b t2 =>
      have hb : b ≠ 120 := hall b (by simp)
      show replaceAll0x (a :: b :: t2) = a :: b :: t2
      rw [show replaceAll0x (a :: b :: t2)
          = if a = 48 ∧ b = 120 then replaceAll0x t2 else a :: replaceAll0x (b :: t2)
          from rfl]
      rw [if_neg (by omega)]
      rw [ih fun x hx => hall x (by simp [hx])]

theorem dropWhile_head_not (p : Nat → Bool) :
    ∀ (l : List Nat) (x : Nat) (t : List Nat), l.dropWhile p = x :: t → p x = false := by
  intro l
  induction l with
  | nil => intro x t h; simp [List.dropWhile] at h
  | cons a t0 ih =>
    intro x t h
    rw [List.dropWhile_cons] at h
    by_cases ha : p a = true
    · rw [if_pos ha] at h
      exact ih x t h
    · rw [if_neg ha] at h
      obtain ⟨rfl, _⟩ : a = x ∧ t0 = t := by
        constructor <;> [exact (List.cons.injEq a t0 x t ▸ h).1; exact (List.cons.injEq a t0 x t ▸ h).2]
      simpa using ha

theorem hexDigitsVal_eq_valLE (ds : GoStr) :
    hexDigitsVal ds = valLE 16 ((ds.map fun bb => (hexValB bb).getD 0).reverse) := by
  unfold hexDigitsVal
  exact foldl_eq_valLE_reverse 16 _

theorem hexDigitsVal_dropZeros (ds : GoStr) (hall : ∀ bb ∈ ds, (hexValB bb).isSome) :
    hexDigitsVal (ds.dropWhile fun bb => bb == 48) = hexDigitsVal ds := by
  unfold hexDigitsVal
  have hmapdrop :
      ((ds.dropWhile fun bb => bb == 48).map fun bb => (hexValB bb).getD 0)
        = (ds.map fun bb => (hexValB bb).getD 0).dropWhile fun d => d == 0 := by
    rw [dropWhile_map_cond (fun bb => (hexValB bb).getD 0) (fun d => d == 0) (fun bb => bb == 48)
      ds ?_]
    intro x hx
    show ((hexValB x).getD 0 == 0) = (x == 48)
    obtain ⟨d, hd⟩ := Option.isSome_iff_exists.mp (hall x hx)
    rw [hd, Option.getD_some]
    by_cases hz : d = 0
    · subst hz
      have := hexValB_eq_zero x hd
      subst this
      rfl
    · have hx48 : x ≠ 48 := by
        intro h
        subst h
        rw [show hexValB 48 = some 0 from rfl] at hd
        simp at hd
        omega
      have h1 : (d == 0) = false := by
        simp [hz]
      have h2 : (x == 48) = false := by
        simp [hx48]
      rw [h1, h2]
  rw [hmapdrop]
  generalize (ds.map fun bb => (hexValB bb).getD 0) = vs
  induction vs with
  | nil => rfl
  | cons d t ih =>
    rw [List.dropWhile_cons]
    by_cases h : d = 0
    · subst h
      simp only [show ((0 : Nat) == 0) = true from rfl, if_true, ih]
      show _ = List.foldl (fun a d => a * 16 + d) (0 * 16 + 0) t
      simp
    · simp [h]

theorem natBytes_hex_canonical (ds : GoStr) (hall : ∀ bb ∈ ds, (hexValB bb).isSome)
    (hcore : ds.dropWhile (fun bb => bb == 48) ≠ []) :
    natBytes hexByte 16 (hexDigitsVal ds) = (ds.dropWhile fun bb => bb == 48).map lowerByte := by
  obtain ⟨x, t, hxt⟩ := List.exists_cons_of_ne_nil hcore
  have hsub : ∀ bb ∈ ds.dropWhile (fun bb => bb == 48), (hexValB bb).isSome := fun bb hbb =>
    hall bb ((List.dropWhile_sublist _).subset hbb)
  have hval : hexDigitsVal ds = hexDigitsVal (ds.dropWhile fun bb => bb == 48) :=
    (hexDigitsVal_dropZeros ds hall).symm
  have hx48 : (x == 48) = false := dropWhile_head_not _ ds x t hxt
  obtain ⟨d0, hd0⟩ := Option.isSome_iff_exists.mp (hsub x (by rw [hxt]; simp))
  have hd0ne : d0 ≠ 0 := by
    intro h
    subst h
    have := hexValB_eq_zero x hd0
    subst this
    simp at hx48
  set core := ds.dropWhile fun bb => bb == 48 with hcoredef
  set vs := core.map fun bb => (hexValB bb).getD 0 with hvs
  have h1 : hexDigitsVal core = valLE 16 vs.reverse := hexDigitsVal_eq_valLE core
  have hlt : ∀ d ∈ vs.reverse, d < 16 := by
    intro d hd
    rw [List.mem_reverse, hvs] at hd
    obtain ⟨bb, hbb, rfl⟩ := List.mem_map.mp hd
    obtain ⟨dd, hdd⟩ := Option.isSome_iff_exists.mp (hsub bb hbb)
    rw [hdd, Option.getD_some]
    exact hexValB_lt bb dd hdd
  have hlast : vs.reverse.getLast? ≠ some 0 := by
    rw [List.getLast?_reverse, hvs, hxt]
    simp only [List.map_cons, List.head?_cons]
    rw [show (hexValB x).getD 0 = d0 from by rw [hd0]; rfl]
    simp [hd0ne]
  have h2 : digitsLE 16 (valLE 16 vs.reverse) = vs.reverse :=
    digitsLE_valLE 16 (by omega) vs.reverse hlt hlast
  have hpos : 0 < valLE 16 vs.reverse := by
    refine valLE_pos 16 (by omega) vs.reverse ?_ hlast
    rw [hvs, hxt]
    simp
  rw [hval, h1]
  unfold natBytes
  rw [if_neg (by omega), h2, List.reverse_reverse, hvs, List.map_map]
  exact List.map_congr_left fun bb hbb => by
    obtain ⟨dd, hdd⟩ := Option.isSome_iff_exists.mp (hsub bb hbb)
    show hexByte ((hexValB bb).getD 0) = lowerByte bb
    rw [hdd, Option.getD_some]
    exact hexByte_hexValB bb dd hdd

theorem bigIntSetString_hexRun (ds : GoStr) (hne : ds ≠ [])
    (hall : ∀ bb ∈ ds, (hexValB bb).isSome) :
    bigIntSetString 16 hexValB ds = some ((hexDigitsVal ds : ℤ)) := by
  obtain ⟨h, t, hl⟩ := List.exists_cons_of_ne_nil hne
  have hh : (hexValB h).isSome := hall h (by rw [hl]; simp)
  obtain ⟨d, hd⟩ := Option.isSome_iff_exists.mp hh
  have hran := hexValB_eq_some h d hd
  rw [hl]
  simp only [bigIntSetString]
  rw [if_neg (by omega), if_neg (by omega), ← hl, parseDigits_hex ds hne hall]
  rfl

theorem ToBigNumber_hexPos (ds : GoStr) (hne : ds ≠ [])
    (hall : ∀ bb ∈ ds, (hexValB bb).isSome) :
    ToBigNumber (VStr (48 :: 120 :: ds)) = some (((hexDigitsVal ds : ℤ) : ℚ)) := by
  have hc : (starts0x (48 :: 120 :: ds) || startsNeg0x (48 :: 120 :: ds)) = true := rfl
  have hrep : replaceAll0x (48 :: 120 :: ds) = ds := by
    rw [show replaceAll0x (48 :: 120 :: ds) = replaceAll0x ds from rfl]
    exact replaceAll0x_no120 ds (no120_mem_hex ds hall)
  simp only [ToBigNumber, hc, if_true, hrep, bigIntSetString_hexRun ds hne hall]
  rfl

theorem ToBigNumber_hexNeg (ds : GoStr) (hne : ds ≠ [])
    (hall : ∀ bb ∈ ds, (hexValB bb).isSome) :
    ToBigNumber (VStr (45 :: 48 :: 120 :: ds)) = some ((-(hexDigitsVal ds : ℤ) : ℚ)) := by
  have hc : (starts0x (45 :: 48 :: 120 :: ds) || startsNeg0x (45 :: 48 :: 120 :: ds)) = true := rfl
  have hrep : replaceAll0x (45 :: 48 :: 120 :: ds) = 45 :: ds := by
    rw [show replaceAll0x (45 :: 48 :: 120 :: ds) = 45 :: replaceAll0x (48 :: 120 :: ds) from rfl]
    rw [show replaceAll0x (48 :: 120 :: ds) = replaceAll0x ds from rfl]
    rw [replaceAll0x_no120 ds (no120_mem_hex ds hall)]
  simp only [ToBigNumber, hc, if_true, hrep]
  rw [show bigIntSetString 16 hexValB (45 :: ds)
      = (parseDigits 16 hexValB ds).map (fun n => -((n : ℤ))) from rfl]
  rw [parseDigits_hex ds hne hall]
  rfl

theorem normHexDigits_core_nil (ds : GoStr) (h : ds.dropWhile (fun bb => bb == 48) = []) :
    normHexDigits ds = [48] := by
  unfold normHexDigits
  rw [h]
  rfl

theorem normHexDigits_core_cons (ds : GoStr) (h : ds.dropWhile (fun bb => bb == 48) ≠ []) :
    normHexDigits ds = (ds.dropWhile fun bb => bb == 48).map lowerByte := by
  unfold normHexDigits
  rw [if_neg (by simpa using h)]

theorem hexDigitsVal_zero_of_core_nil (ds : GoStr) (hall : ∀ bb ∈ ds, (hexValB bb).isSome)
    (h : ds.dropWhile (fun bb => bb == 48) = []) : hexDigitsVal ds = 0 := by
  rw [← hexDigitsVal_dropZeros ds hall, h]
  rfl

theorem FromDecimal_hexPos (ds : GoStr) (hne : ds ≠ [])
    (hall : ∀ bb ∈ ds, (hexValB bb).isSome) :
    FromDecimal (VStr (48 :: 120 :: ds)) = some (48 :: 120 :: normHexDigits ds) := by
  rw [FromDecimal, ToBigNumber_hexPos ds hne hall]
  have hden : (((hexDigitsVal ds : ℤ) : ℚ)).den = 1 := Rat.den_intCast _
  have hnonneg : ¬ (((hexDigitsVal ds : ℤ) : ℚ)) < 0 := by
    simp
  have hnum : (((hexDigitsVal ds : ℤ) : ℚ)).num = (hexDigitsVal ds : ℤ) := Rat.num_intCast _
  simp only [hden, if_pos, hnonneg, if_neg, hnum, if_false]
  congr 2
  unfold intText16
  rw [if_neg (by simp)]
  rw [show ((hexDigitsVal ds : ℤ)).natAbs = hexDigitsVal ds from rfl]
  by_cases hcore : ds.dropWhile (fun bb => bb == 48) = []
  · rw [hexDigitsVal_zero_of_core_nil ds hall hcore, normHexDigits_core_nil ds hcore]
    rfl
  · rw [natBytes_hex_canonical ds hall hcore, normHexDigits_core_cons ds hcore]

theorem FromDecimal_hexNeg (ds : GoStr) (hne : ds ≠ [])
    (hall : ∀ bb ∈ ds, (hexValB bb).isSome) :
    FromDecimal (VStr (45 :: 48 :: 120 :: ds)) =
      some (if ds.dropWhile (fun bb => bb == 48) = [] then 48 :: 120 :: [48]
            else 45 :: 48 :: 120 :: (ds.dropWhile fun bb => bb == 48).map lowerByte) := by
  rw [FromDecimal, ToBigNumber_hexNeg ds hne hall]
  have hden : ((-(hexDigitsVal ds : ℤ) : ℚ)).den = 1 := Rat.den_intCast _
  have hnum : ((-(hexDigitsVal ds : ℤ) : ℚ)).num = -(hexDigitsVal ds : ℤ) := Rat.num_intCast _
  by_cases hcore : ds.dropWhile (fun bb => bb == 48) = []
  · have hv : hexDigitsVal ds = 0 := hexDigitsVal_zero_of_core_nil ds hall hcore
    rw [hv, if_pos hcore]
    norm_num
    rfl
  · have hvne : hexDigitsVal ds ≠ 0 := by
      intro h
      apply hcore
      by_contra hcc
      obtain ⟨x, t, hxt⟩ := List.exists_cons_of_ne_nil hcc
      have hx48 : (x == 48) = false := dropWhile_head_not _ ds x t hxt
      have hsub : ∀ bb ∈ ds.dropWhile (fun bb => bb == 48), (hexValB bb).isSome := fun bb hbb =>
        hall bb ((List.dropWhile_sublist _).subset hbb)
      obtain ⟨d0, hd0⟩ := Option.isSome_iff_exists.mp (hsub x (by rw [hxt]; simp))
      have hd0ne : d0 ≠ 0 := by
        intro hh
        subst hh
        have := hexValB_eq_zero x hd0
        subst this
        simp at hx48
      have hdrop := hexDigitsVal_dropZeros ds hall
      rw [h] at hdrop
      rw [hexDigitsVal_eq_valLE] at hdrop
      have hlast : ((ds.dropWhile fun bb => bb == 48).map
          fun bb => (hexValB bb).getD 0).reverse.getLast? ≠ some 0 := by
        rw [List.getLast?_reverse, hxt]
        simp only [List.map_cons, List.head?_cons]
        rw [show (hexValB x).getD 0 = d0 from by rw [hd0]; rfl]
        simp [hd0ne]
      have hpos := valLE_pos 16 (by omega) _ (by rw [hxt]; simp) hlast
      omega
    have hneg : ((-(hexDigitsVal ds : ℤ) : ℚ)) < 0 := by
      have : (0 : ℤ) < (hexDigitsVal ds : ℤ) := by omega
      rw [show ((-(hexDigitsVal ds : ℤ) : ℚ)) = -(((hexDigitsVal ds : ℤ) : ℚ)) from by push_cast; ring]
      simp only [neg_neg, Left.neg_neg_iff]
      exact_mod_cast this
    rw [if_neg hcore]
    simp only [hden, if_pos, if_pos hneg, hnum]
    congr 2
    unfold intText16
    rw [if_pos (by omega)]
    simp only [List.drop_succ_cons, List.drop_zero]
    rw [show (-(hexDigitsVal ds : ℤ)).natAbs = hexDigitsVal ds from by omega]
    rw [natBytes_hex_canonical ds hall hcore]

/-! ## Unit conversion round trip -/

theorem getValueOfUnit_int (u : GoStr) (r : ℚ) (h : getValueOfUnit u = some r) :
    ∃ j : ℤ, r = ((j : ℚ)) := by
  unfold getValueOfUnit at h
  obtain ⟨v, hv, hmap⟩ := Option.bind_eq_some.mp h
  have hmap2 : (bigIntSetString 10 decValB v).map (fun i => ((i : ℚ))) = some r := hmap
  rcases hbs : bigIntSetString 10 decValB v with _ | j
  · rw [hbs] at hmap2
    simp at hmap2
  · rw [hbs] at hmap2
    exact ⟨j, (Option.some.inj hmap2).symm⟩

theorem ToBigNumber_VInt (i : ℤ) : ToBigNumber (VInt i) = some ((i : ℚ)) := rfl

/-- C4: for every integral quantity `q` and every unit name `u` whose table
scale factor `r` is nonzero, converting `q` to the smallest unit with `ToSha`
and back with `FromSha` is the identity: the result is the decimal rendering
of `q` itself. -/
theorem claim_C4 (q : ℤ) (u : GoStr) (r : ℚ) (hr : getValueOfUnit u = some r)
    (hne : r ≠ 0) :
    (ToSha (VInt q) u).bind (fun s => FromSha s u) = some (goIntDec q) := by
  obtain ⟨j, rfl⟩ := getValueOfUnit_int u r hr
  have hj0 : j ≠ 0 := by
    intro h
    exact hne (by rw [h]; norm_num)
  simp only [ToSha, ToBigNumber_VInt, hr]
  have hmul : ((q : ℚ)) * ((j : ℚ)) = (((q * j : ℤ) : ℚ)) := by push_cast; ring
  rw [hmul, Rat.num_intCast]
  simp only [Option.some_bind]
  rw [FromSha, ToBigNumber_goIntDec (q * j), hr]
  show (if ((j : ℚ)) = 0 then none
        else some (goIntDec (((((q * j : ℤ) : ℚ))) / ((j : ℚ))).num)) = some (goIntDec q)
  rw [if_neg hne]
  have hdiv : (((q * j : ℤ) : ℚ)) / ((j : ℚ)) = ((q : ℚ)) := by
    push_cast
    exact mul_div_cancel_right₀ _ (by exact_mod_cast hj0)
  rw [hdiv, Rat.num_intCast]

/-! ## Hex renderings of integers are accepted by `ToBigNumber` -/

theorem natBytes_mem_hex (n : Nat) : ∀ x ∈ natBytes hexByte 16 n, (hexValB x).isSome := by
  intro x hx
  unfold natBytes at hx
  split at hx
  · simp at hx
    subst hx
    rfl
  · simp only [List.mem_map] at hx
    obtain ⟨d, hd, rfl⟩ := hx
    have := digitsLE_lt 16 (by omega) n d (List.mem_reverse.mp hd)
    rw [hexValB_hexByte d this]
    rfl

theorem hexDigitsVal_natBytes (n : Nat) : hexDigitsVal (natBytes hexByte 16 n) = n := by
  have h1 := parseDigits_natBytes 16 hexValB hexByte (by omega) hexValB_hexByte rfl n
  have h2 := parseDigits_hex (natBytes hexByte 16 n) (natBytes_ne_nil hexByte 16 n (by omega))
    (natBytes_mem_hex n)
  rw [h1] at h2
  exact (Option.some.injEq _ _ ▸ h2.symm :)

theorem ToBigNumber_goIntHex (i : ℤ) : ToBigNumber (VStr (goIntHex i)) = some ((i : ℚ)) := by
  by_cases hi : i < 0
  · rw [goIntHex, if_pos hi,
      ToBigNumber_hexNeg _ (natBytes_ne_nil hexByte 16 i.natAbs (by omega)) (natBytes_mem_hex _),
      hexDigitsVal_natBytes]
    congr 1
    have h2 : -((i.natAbs : ℤ)) = i := by omega
    exact_mod_cast h2
  · rw [goIntHex, if_neg hi,
      ToBigNumber_hexPos _ (natBytes_ne_nil hexByte 16 i.natAbs (by omega)) (natBytes_mem_hex _),
      hexDigitsVal_natBytes]
    congr 1
    have h2 : ((i.natAbs : ℤ)) = i := by omega
    exact_mod_cast h2

/-- Witness for C4 at `q = 7`, `u = "mc"` (scale `10^18`). -/
theorem claim_C4_witness :
    (ToSha (VInt 7) (gs ("mc"))).bind (fun s => FromSha s (gs ("mc"))) = some (gs ("7")) :=
  (claim_C4 7 (gs ("mc")) (((1000000000000000000 : ℤ) : ℚ)) (by decide) (by norm_num)).trans
    (by decide)

/-! ## The claims -/

/-- Sanity anchor for the Keccak-256 embedding: the digest of the empty
message is the well-known constant `c5d24601...`. -/
theorem keccak256_nil :
    keccak256 [] =
      [0xc5, 0xd2, 0x46, 0x01, 0x86, 0xf7, 0x23, 0x3c, 0x92, 0x7e, 0x7d, 0xb2, 0xdc, 0xc7, 0x03,
       0xc0, 0xe5, 0x00, 0xb6, 0x53, 0xca, 0x82, 0x27, 0x3b, 0x7b, 0xfa, 0xd8, 0x04, 0x5d, 0x85,
       0xa4, 0x70] := by
  decide

/-- C1: the code does not implement EIP-55. On the canonical correctly
EIP-55-checksummed address `0x5aAeb6053F3E94C9b9A09f33669435E7Ef1BeAed` the
spec-side checker `eip55Valid` (section 4.5 of the spec, verbatim EIP-55)
accepts, while the code's `isChecksumAddress` returns `false`: its case
comparisons are inverted relative to EIP-55 (`==` where web3.js has `!==`)
and it indexes the unstripped input string, so the `'0'` of the `"0x"` prefix
trips the first loop iteration. -/
theorem claim_C1 :
    isChecksumAddress (gs ("0x5aAeb6053F3E94C9b9A09f33669435E7Ef1BeAed")) = some false ∧
      eip55Valid (gs ("0x5aAeb6053F3E94C9b9A09f33669435E7Ef1BeAed")) = true := by
  decide

/-- C2: the unit lookup of `"bogus"` does not return an error value — it
reaches the `panic` in `getValueOfUnit` (`none` in this embedding); the
function's type `*big.Rat` has no error channel at all. -/
theorem claim_C2 : getValueOfUnit (gs ("bogus")) = none := by decide

/-- C3 (counterexample to the claim as stated): `"-0x0"` is a valid hex
quantity string, but the round trip returns `"0x0"`, which differs from
`"-0x0"` by more than leading zeros and letter case (the sign is dropped). -/
theorem claim_C3_counterexample :
    isValidHexQuantity (gs ("-0x0")) = true ∧
      FromDecimal (VStr (gs ("-0x0"))) ≠ some (normHexZerosCase (gs ("-0x0"))) := by
  decide

/-- C3 (amended): for every valid hex quantity string `s`, converting to a
Quantity and back is the identity up to normalization of leading zeros and
letter case, except that a negative zero numeral additionally drops its sign
(the code renders the value zero as `"0x0"` regardless of input sign). -/
theorem claim_C3 (s : GoStr) (hv : isValidHexQuantity s = true) :
    FromDecimal (VStr s) = some (normHexQuantity s) := by
  cases s with
  | nil => simp [isValidHexQuantity] at hv
  | cons h t =>
    by_cases h45 : h = 45
    · subst h45
      have hp : posHexNumeral t = true := by
        simpa [isValidHexQuantity] using hv
      cases t with
      | nil => simp [posHexNumeral] at hp
      | cons a t2 =>
        cases t2 with
        | nil => simp [posHexNumeral] at hp
        | cons b ds =>
          simp only [posHexNumeral, Bool.and_eq_true, beq_iff_eq] at hp
          obtain ⟨⟨ha, hb⟩, hne2, hall2⟩ := hp
          subst ha
          subst hb
          have hne : ds ≠ [] := by
            intro hh
            subst hh
            simp at hne2
          have hall : ∀ bb ∈ ds, (hexValB bb).isSome := fun bb hbb =>
            List.all_eq_true.mp hall2 bb hbb
          rw [FromDecimal_hexNeg ds hne hall]
          have hnq : normHexQuantity (45 :: 48 :: 120 :: ds)
              = (if (ds.dropWhile fun bb => bb == 48).isEmpty then 48 :: 120 :: [48]
                 else 45 :: 48 :: 120 :: (ds.dropWhile fun bb => bb == 48).map lowerByte) := rfl
          rw [hnq]
          by_cases hcore : ds.dropWhile (fun bb => bb == 48) = []
          · rw [if_pos hcore, if_pos (by simp [hcore])]
          · rw [if_neg hcore, if_neg (by simpa using hcore)]
    · have hp : posHexNumeral (h :: t) = true := by
        simpa [isValidHexQuantity, h45] using hv
      cases t with
      | nil => simp [posHexNumeral] at hp
      | cons b ds =>
        simp only [posHexNumeral, Bool.and_eq_true, beq_iff_eq] at hp
        obtain ⟨⟨ha, hb⟩, hne2, hall2⟩ := hp
        subst ha
        subst hb
        have hne : ds ≠ [] := by
          intro hh
          subst hh
          simp at hne2
        have hall : ∀ bb ∈ ds, (hexValB bb).isSome := fun bb hbb =>
          List.all_eq_true.mp hall2 bb hbb
        rw [FromDecimal_hexPos ds hne hall]
        rfl

/-- Witness for C3 at `s = "0x00Ff"`: the round trip yields `"0xff"`. -/
theorem claim_C3_witness :
    FromDecimal (VStr (gs ("0x00Ff"))) = some (gs ("0xff")) :=
  (claim_C3 (gs ("0x00Ff")) (by decide)).trans (by decide)

/-- C5: the empty unit name (and any all-whitespace name) does not yield the
primary unit's scale: the code substitutes the literal key `"ether"`, which
is absent from this fork's `unitMap`, so lookup panics (`none`); trimming and
lowercasing for nonempty names do work (`" MC "` resolves to `10^18`). -/
theorem claim_C5 :
    getValueOfUnit (gs ("")) = none ∧ getValueOfUnit (gs ("ether")) = none ∧
      getValueOfUnit (gs (" MC ")) = some ((1000000000000000000 : ℚ)) := by
  decide

/-- C6: `ToBigNumber` accepts an integer, the decimal rendering of any
integer, and the `0x`/`-0x` hex rendering of any integer, normalizing each
into the corresponding rational Quantity; and `ToSha(1, "mc")` is the decimal
string `1000000000000000000` (1 followed by 18 zeros). -/
theorem claim_C6 :
    (∀ i : ℤ, ToBigNumber (VInt i) = some ((i : ℚ))) ∧
    (∀ i : ℤ, ToBigNumber (VStr (goIntDec i)) = some ((i : ℚ))) ∧
    (∀ i : ℤ, ToBigNumber (VStr (goIntHex i)) = some ((i : ℚ))) ∧
    ToSha (VInt 1) (gs ("mc")) = some (gs ("1000000000000000000")) := by
  refine ⟨fun i => rfl, ToBigNumber_goIntDec, ToBigNumber_goIntHex, ?_⟩
  have hu : getValueOfUnit (gs ("mc")) = some (((1000000000000000000 : ℤ) : ℚ)) := by decide
  simp only [ToSha, ToBigNumber_VInt, hu]
  have hmul : (((1 : ℤ) : ℚ)) * (((1000000000000000000 : ℤ) : ℚ))
      = (((1000000000000000000 : ℤ) : ℚ)) := by
    norm_num
  rw [hmul, Rat.num_intCast]
  decide

/-- C8: `IsAddress` returns `true` for any string matching the all-lowercase
or all-uppercase 40-hex-digit pattern (optional `"0x"`), and for every other
string returns exactly the result of `isChecksumAddress`. -/
theorem claim_C8 (s : GoStr) :
    ((matchesOptional0x isHexLowerB s || matchesOptional0x isHexUpperB s) = true →
      IsAddress s = some true) ∧
    ((matchesOptional0x isHexLowerB s || matchesOptional0x isHexUpperB s) = false →
      IsAddress s = isChecksumAddress s) := by
  constructor
  · intro h
    simp [IsAddress, h]
  · intro h
    simp [IsAddress, h]

/-- Witness for C8: the spec's known test address (all lowercase) is accepted
by the pattern branch; a non-matching string falls through to the checksum
validator. -/
theorem claim_C8_witness :
    IsAddress (gs ("0x407d73d8a49eeb85d32cf465507dd71d507100c1")) = some true ∧
      IsAddress (gs ("hello")) = isChecksumAddress (gs ("hello")) :=
  ⟨(claim_C8 (gs ("0x407d73d8a49eeb85d32cf465507dd71d507100c1"))).1 (by decide),
    (claim_C8 (gs ("hello"))).2 (by decide)⟩

/-- C9: unit lookup is case-insensitive (it depends only on the lowercased
name), and each unit name listed in the spec's external interface resolves to
exactly the listed scale factor. -/
theorem claim_C9 :
    (∀ u v : GoStr, u.map lowerByte = v.map lowerByte →
      getValueOfUnit u = getValueOfUnit v) ∧
    getValueOfUnit (gs ("sha")) = some ((1 : ℚ)) ∧
    getValueOfUnit (gs ("ksha")) = some ((1000 : ℚ)) ∧
    getValueOfUnit (gs ("Ksha")) = some ((1000 : ℚ)) ∧
    getValueOfUnit (gs ("msha")) = some ((1000000 : ℚ)) ∧
    getValueOfUnit (gs ("Msha")) = some ((1000000 : ℚ)) ∧
    getValueOfUnit (gs ("gsha")) = some ((1000000000 : ℚ)) ∧
    getValueOfUnit (gs ("Gsha")) = some ((1000000000 : ℚ)) ∧
    getValueOfUnit (gs ("nano")) = some ((1000000000 : ℚ)) ∧
    getValueOfUnit (gs ("nanomc")) = some ((1000000000 : ℚ)) ∧
    getValueOfUnit (gs ("micro")) = some ((1000000000000 : ℚ)) ∧
    getValueOfUnit (gs ("micromc")) = some ((1000000000000 : ℚ)) ∧
    getValueOfUnit (gs ("milli")) = some ((1000000000000000 : ℚ)) ∧
    getValueOfUnit (gs ("millimc")) = some ((1000000000000000 : ℚ)) ∧
    getValueOfUnit (gs ("mc")) = some ((1000000000000000000 : ℚ)) ∧
    getValueOfUnit (gs ("kmc")) = some ((1000000000000000000000 : ℚ)) ∧
    getValueOfUnit (gs ("grand")) = some ((1000000000000000000000 : ℚ)) ∧
    getValueOfUnit (gs ("mmc")) = some ((1000000000000000000000000 : ℚ)) ∧
    getValueOfUnit (gs ("gmc")) = some ((1000000000000000000000000000 : ℚ)) ∧
    getValueOfUnit (gs ("tmc")) = some ((1000000000000000000000000000000 : ℚ)) ∧
    getValueOfUnit (gs ("nomc")) = some ((0 : ℚ)) :=
  ⟨getValueOfUnit_congr_lower, by decide⟩

/-- Witness for C9's case-insensitivity at `"KSHA"` versus `"ksha"`. -/
theorem claim_C9_witness :
    getValueOfUnit (gs ("KSHA")) = getValueOfUnit (gs ("ksha")) :=
  claim_C9.1 (gs ("KSHA")) (gs ("ksha")) (by decide)

/-- C10: `"nomc"` is in the unit table with scale factor `0`, and `FromSha`
divides by it with no guard: for every number string that parses, the call
panics (`big.Rat.Quo` with a zero divisor), modelled as `none` — no error
value is returned. -/
theorem claim_C10 :
    getValueOfUnit (gs ("nomc")) = some 0 ∧
      ∀ (s : GoStr) (n : ℚ), ToBigNumber (VStr s) = some n →
        FromSha s (gs ("nomc")) = none := by
  refine ⟨by decide, ?_⟩
  intro s n h
  have h0 : getValueOfUnit (gs ("nomc")) = some 0 := by decide
  rw [FromSha, h, h0]
  show (if (0 : ℚ) = 0 then none else some (goIntDec ((n / 0).num))) = none
  rw [if_pos rfl]

/-- Witness for C10 at the number string `"5"`. -/
theorem claim_C10_witness : FromSha (gs ("5")) (gs ("nomc")) = none :=
  claim_C10.2 (gs ("5")) (((5 : ℤ) : ℚ)) (by decide)

end Chain3
